import Mathlib

/-!
Verification model of the Livestore FastAPI sync server
(apps/server/app/websocket/handler.py, apps/server/app/websocket/manager.py,
apps/server/app/websocket_handler.py, apps/server/app/db/postgres.py,
server-python/app/message_types.py, server-python/app/database.py,
apps/server/app/core/config.py).

The Python code is embedded shallowly: handlers become total functions from a
server state (durable per-store tables, per-store subscriber sets, head cache,
push-semaphore registry) and an incoming message to a new state plus the list
of frames written to the requesting channel and an optional broadcast frame.
-/

namespace Livestore

mutual
/-- JSON values as the server handles them: the payload type of the `args`
column and of wire-frame fields. Numbers are modelled as integers. -/
inductive Json where
  | null
  | bool (b : Bool)
  | num (n : Int)
  | str (s : String)
  | arr (elems : JsonArr)
  | obj (fields : JsonObj)
/-- Element list of a JSON array. -/
inductive JsonArr where
  | nil
  | cons (hd : Json) (tl : JsonArr)
/-- Member list of a JSON object, in insertion order. -/
inductive JsonObj where
  | nil
  | cons (key : String) (val : Json) (tl : JsonObj)
end

deriving instance DecidableEq for Json, JsonArr, JsonObj

/-- Escaping of a single character as performed by json.dumps. -/
def jsonEscChar (c : Char) : String :=
  if c = '"' then "\\\""
  else if c = '\\' then "\\\\"
  else if c = '\n' then "\\n"
  else if c = '\t' then "\\t"
  else if c = '\r' then "\\r"
  else Char.toString c

/-- A JSON string literal as produced by json.dumps. -/
def jsonDumpStr (s : String) : String :=
  "\"" ++ String.join (s.data.map jsonEscChar) ++ "\""

mutual
/-- json.dumps with Python's default separators. -/
def jsonDumps : Json → String
  | Json.null => "null"
  | Json.bool b => cond b "true" "false"
  | Json.num n => toString n
  | Json.str s => jsonDumpStr s
  | Json.arr xs => "[" ++ jsonDumpsArr xs ++ "]"
  | Json.obj kvs => "\x7b" ++ jsonDumpsObj kvs ++ "\x7d"
/-- Array elements joined by the default item separator. -/
def jsonDumpsArr : JsonArr → String
  | JsonArr.nil => ""
  | JsonArr.cons x JsonArr.nil => jsonDumps x
  | JsonArr.cons x tl => jsonDumps x ++ ", " ++ jsonDumpsArr tl
/-- Object members joined by the default item and key separators. -/
def jsonDumpsObj : JsonObj → String
  | JsonObj.nil => ""
  | JsonObj.cons k v JsonObj.nil => jsonDumpStr k ++ ": " ++ jsonDumps v
  | JsonObj.cons k v tl => jsonDumpStr k ++ ": " ++ jsonDumps v ++ ", " ++ jsonDumpsObj tl
end

/-- Whitespace characters skipped by the JSON reader. -/
def jsonWsChar (c : Char) : Bool :=
  c = ' ' || c = '\n' || c = '\t' || c = '\r'

/-- Skip leading JSON whitespace. -/
def jsonSkipWs : List Char → List Char
  | [] => []
  | c :: rest => if jsonWsChar c then jsonSkipWs rest else c :: rest

/-- Decoding of a character after a backslash in a JSON string literal. -/
def jsonEscDecode (c : Char) : Option Char :=
  if c = '"' then some '"'
  else if c = '\\' then some '\\'
  else if c = '/' then some '/'
  else if c = 'n' then some '\n'
  else if c = 't' then some '\t'
  else if c = 'r' then some '\r'
  else if c = 'b' then some (Char.ofNat 8)
  else if c = 'f' then some (Char.ofNat 12)
  else none

/-- Read the remainder of a JSON string literal (the opening quote already
consumed), returning the decoded string and the rest of the input. -/
def jsonReadStr : List Char → List Char → Option (String × List Char)
  | [], _ => none
  | c :: rest, acc =>
    if c = '"' then some (⟨acc.reverse⟩, rest)
    else if c = '\\' then
      match rest with
      | [] => none
      | e :: rest2 =>
        match jsonEscDecode e with
        | some d => jsonReadStr rest2 (d :: acc)
        | none => none
    else jsonReadStr rest (c :: acc)

/-- Read a run of decimal digits, accumulating their value. -/
def jsonReadDigits : List Char → Nat → Nat × List Char
  | [], acc => (acc, [])
  | c :: rest, acc =>
    if c.isDigit then jsonReadDigits rest (acc * 10 + (c.toNat - 48))
    else (acc, c :: rest)

/-- Mode of the fueled JSON reader: a single value, array elements after the
opening bracket, or object members after the opening brace. -/
inductive JMode where
  | val
  | elems
  | members

/-- Partial results of the fueled JSON reader. -/
inductive JOut where
  | val (v : Json)
  | elems (vs : JsonArr)
  | members (kvs : JsonObj)

/-- Fueled recursive-descent JSON reader (integer numerals; every recursion
level follows the consumption of at least one character per two levels, so
fuel 2 * length + 4 always suffices). -/
def jsonReadF : Nat → JMode → List Char → Option (JOut × List Char)
  | 0, _, _ => none
  | f + 1, JMode.val, cs =>
    match jsonSkipWs cs with
    | [] => none
    | c :: rest =>
      if c = 'n' then
        match rest with
        | 'u' :: 'l' :: 'l' :: r => some (JOut.val Json.null, r)
        | _ => none
      else if c = 't' then
        match rest with
        | 'r' :: 'u' :: 'e' :: r => some (JOut.val (Json.bool true), r)
        | _ => none
      else if c = 'f' then
        match rest with
        | 'a' :: 'l' :: 's' :: 'e' :: r => some (JOut.val (Json.bool false), r)
        | _ => none
      else if c = '"' then
        match jsonReadStr rest [] with
        | some (s, r) => some (JOut.val (Json.str s), r)
        | none => none
      else if c = '-' then
        match rest with
        | d :: _ =>
          if d.isDigit then
            let p := jsonReadDigits rest 0
            some (JOut.val (Json.num (-(p.1 : Int))), p.2)
          else none
        | [] => none
      else if c.isDigit then
        let p := jsonReadDigits (c :: rest) 0
        some (JOut.val (Json.num (p.1 : Int)), p.2)
      else if c = Char.ofNat 91 then
        match jsonReadF f JMode.elems rest with
        | some (JOut.elems vs, r) => some (JOut.val (Json.arr vs), r)
        | _ => none
      else if c = Char.ofNat 123 then
        match jsonReadF f JMode.members rest with
        | some (JOut.members kvs, r) => some (JOut.val (Json.obj kvs), r)
        | _ => none
      else none
  | f + 1, JMode.elems, cs =>
    match jsonSkipWs cs with
    | [] => none
    | c :: rest =>
      if c = Char.ofNat 93 then some (JOut.elems JsonArr.nil, rest)
      else
        match jsonReadF f JMode.val (c :: rest) with
        | some (JOut.val v, r) =>
          (match jsonSkipWs r with
           | ',' :: r2 =>
             (match jsonReadF f JMode.elems r2 with
              | some (JOut.elems vs, r3) => some (JOut.elems (JsonArr.cons v vs), r3)
              | _ => none)
           | d :: r2 =>
             if d = Char.ofNat 93 then some (JOut.elems (JsonArr.cons v JsonArr.nil), r2)
             else none
           | [] => none)
        | _ => none
  | f + 1, JMode.members, cs =>
    match jsonSkipWs cs with
    | [] => none
    | c :: rest =>
      if c = Char.ofNat 125 then some (JOut.members JsonObj.nil, rest)
      else if c = '"' then
        match jsonReadStr rest [] with
        | some (k, r) =>
          (match jsonSkipWs r with
           | ':' :: r2 =>
             (match jsonReadF f JMode.val r2 with
              | some (JOut.val v, r3) =>
                (match jsonSkipWs r3 with
                 | ',' :: r4 =>
                   (match jsonReadF f JMode.members r4 with
                    | some (JOut.members kvs, r5) =>
                        some (JOut.members (JsonObj.cons k v kvs), r5)
                    | _ => none)
                 | d :: r4 =>
                   if d = Char.ofNat 125 then
                     some (JOut.members (JsonObj.cons k v JsonObj.nil), r4)
                   else none
                 | [] => none)
              | _ => none)
           | _ => none)
        | none => none
      else none

/-- json.loads on the modelled JSON subset: a complete value with nothing but
whitespace after it. -/
def jsonLoads (s : String) : Option Json :=
  match jsonReadF (2 * s.length + 4) JMode.val s.data with
  | some (JOut.val v, rest) => if jsonSkipWs rest = [] then some v else none
  | _ => none

/-- Lookup of a key in a decoded JSON object; as in a Python dict built by
json.loads, the last occurrence of a duplicated key wins. -/
def jLookup (fields : List (String × Json)) (k : String) : Option Json :=
  fields.reverse.lookup k

/-- Lookup expecting a JSON string value. -/
def jStr (v : Option Json) : Option String :=
  match v with
  | some (Json.str s) => some s
  | _ => none

/-- An event in wire encoding (EventEncoded in message_types.py): the unit of
replication carried by PushReq and PullRes batches. -/
structure EventEncoded where
  seqNum : Int
  parentSeqNum : Int
  name : String
  args : Option Json
  clientId : String
  sessionId : String

deriving instance DecidableEq for EventEncoded

/-- One element of a PullRes batch: the event plus optional sync metadata
(the createdAt timestamp string when present). -/
structure PullResBatchItem where
  eventEncoded : EventEncoded
  metadata : Option String

deriving instance DecidableEq for PullResBatchItem

/-- Context marker of a PullRes requestId. -/
inductive ReqContext where
  | pull
  | push

deriving instance DecidableEq for ReqContext

/-- The structured requestId of a PullRes frame. -/
structure PullResRequestId where
  context : ReqContext
  requestId : String

deriving instance DecidableEq for PullResRequestId

/-- Payload of an AdminInfoRes frame (handle_admin_info). -/
structure AdminInfo where
  durableObjectId : String
  storeId : String
  currentHead : Int
  activeConnections : Nat

deriving instance DecidableEq for AdminInfo

/-- Frames the server writes to a channel (BackendToClientMessage). -/
inductive ServerMsg where
  | pullRes (batch : List PullResBatchItem) (requestId : PullResRequestId) (remaining : Nat)
  | pushAck (requestId : String)
  | pong
  | error (requestId : String) (message : String)
  | adminResetRoomRes (requestId : String)
  | adminInfoRes (requestId : String) (info : AdminInfo)

deriving instance DecidableEq for ServerMsg

/-- Parsed client messages (ClientToBackendMessage). -/
inductive ClientMsg where
  | pullReq (requestId : String) (cursor : Option Int)
  | pushReq (requestId : String) (batch : List EventEncoded)
  | ping
  | adminResetRoomReq (requestId : String) (adminSecret : String)
  | adminInfoReq (requestId : String) (adminSecret : String)

deriving instance DecidableEq for ClientMsg

/-- A persisted row of a store's eventlog table (schema in
PostgresEventStore.ensure_table): seq_num, parent_seq_num, name, args (JSONB),
created_at, client_id, session_id. -/
structure StoredEvent where
  seqNum : Int
  parentSeqNum : Int
  name : String
  args : Option Json
  createdAt : String
  clientId : String
  sessionId : String

deriving instance DecidableEq for StoredEvent

/-- The args value placed in the JSONB column by
PostgresEventStore.append_events: a value that is not None and not already a
string is passed through json.dumps, so the column receives a JSON string. -/
def storedArgsOf (a : Option Json) : Option Json :=
  match a with
  | none => none
  | some (Json.str s) => some (Json.str s)
  | some v => some (Json.str (jsonDumps v))

/-- Row built from a pushed event by handle_push_req / append_events, with the
server-assigned created_at. -/
def toStored (createdAt : String) (e : EventEncoded) : StoredEvent :=
  ⟨e.seqNum, e.parentSeqNum, e.name, storedArgsOf e.args, createdAt, e.clientId, e.sessionId⟩

/-- The args value returned by PostgresEventStore.get_events: a string column
value is passed through json.loads, falling back to the raw string when that
raises. -/
def pulledArgs (a : Option Json) : Option Json :=
  match a with
  | some (Json.str s) =>
    (match jsonLoads s with
     | some v => some v
     | none => some (Json.str s))
  | x => x

/-- SELECT seq_num FROM eventlog ORDER BY seq_num DESC LIMIT 1, with 0 when
the table is empty (PostgresEventStore.get_head). -/
def dbHead (table : List StoredEvent) : Int :=
  match table with
  | [] => 0
  | e :: rest => rest.foldl (fun acc r => max acc r.seqNum) e.seqNum

/-- In-memory server state: the durable per-store tables owned by the event
store, plus the ConnectionManager registries (active_connections,
current_heads and push_semaphores dicts, all keyed by store_id; a missing
dict key is none / false). -/
structure SState where
  db : String → List StoredEvent
  conns : String → Option (Finset Nat)
  heads : String → Option Int
  sems : String → Bool

/-- State at process start: no tables, no connections, empty caches. -/
def initState : SState :=
  ⟨fun _ => [], fun _ => none, fun _ => none, fun _ => false⟩

/-- Assignment of one key of a string-keyed dict. -/
def mapSet {α : Type} (f : String → α) (k : String) (v : α) : String → α :=
  fun x => if x = k then v else f x

/-- ConnectionManager.connect followed by the head-cache initialization that
runs on first attach when the cache has no entry (websocket_handler.py
ConnectionManager.connect; EventService.initialize_store guarded by the
cache check, as the handshake wiring of the websocket package performs it):
add the channel to the store's set, allocating the set and the push semaphore
when the store is new, then populate the head cache from the durable head if
it has no entry. -/
def connectStep (st : SState) (ws : Nat) (storeId : String) : SState :=
  let st1 :=
    match st.conns storeId with
    | none =>
      { st with conns := mapSet st.conns storeId (some {ws}),
                sems := mapSet st.sems storeId true }
    | some s =>
      { st with conns := mapSet st.conns storeId (some (insert ws s)) }
  match st1.heads storeId with
  | none =>
    { st1 with heads := mapSet st1.heads storeId (some (dbHead (st1.db storeId))) }
  | some _ => st1

/-- ConnectionManager.disconnect: discard the channel; when the store's set
becomes empty, delete the set, the head-cache entry and the push semaphore. -/
def disconnectStep (st : SState) (ws : Nat) (storeId : String) : SState :=
  match st.conns storeId with
  | none => st
  | some s =>
    let s2 := s.erase ws
    if s2 = ∅ then
      { st with conns := mapSet st.conns storeId none,
                heads := mapSet st.heads storeId none,
                sems := mapSet st.sems storeId false }
    else
      { st with conns := mapSet st.conns storeId (some s2) }

/-- ConnectionManager.broadcast_to_store: send to every channel of the store
except the excluded one; channels whose send fails (the failedSends
parameter) are discarded from the set, which may leave it empty but present.
Nothing else changes. -/
def broadcastStep (st : SState) (storeId : String) (failedSends : Finset Nat)
    (exclude : Option Nat) : SState :=
  match st.conns storeId with
  | none => st
  | some s =>
    { st with conns :=
        (mapSet st.conns storeId
          (some (s.filter (fun c => some c = exclude ∨ c ∉ failedSends)))) }

/-- Per-chunk admissibility of an executemany INSERT against the seq_num
primary key: every row's seq_num must be absent from the table and not
repeated inside the chunk, else the whole chunk raises and inserts nothing. -/
def chunkOkB (table : List StoredEvent) (chunk : List StoredEvent) : Bool :=
  chunk.all (fun e => table.all (fun r => e.seqNum != r.seqNum)) &&
    decide (chunk.map StoredEvent.seqNum).Nodup

/-- Fueled body of PostgresEventStore.append_events: insert the batch in
chunks of 100; a chunk violating the primary key raises, leaving the earlier
chunks committed, and the Bool records whether every chunk succeeded. -/
def appendAux : Nat → List StoredEvent → List StoredEvent → List StoredEvent × Bool
  | _, table, [] => (table, true)
  | 0, table, _ :: _ => (table, false)
  | fuel + 1, table, b :: bs =>
    let chunk := (b :: bs).take 100
    if chunkOkB table chunk then
      appendAux fuel (table ++ chunk) ((b :: bs).drop 100)
    else (table, false)

/-- PostgresEventStore.append_events on a table state (fuel equal to the
batch length always suffices since every chunk is nonempty). -/
def appendEvents (table : List StoredEvent) (batch : List StoredEvent) :
    List StoredEvent × Bool :=
  appendAux batch.length table batch

/-- The parent-mismatch error text of handle_push_req. -/
def invalidParentMsg (received expected : Int) : String :=
  "Invalid parent event number. Received e" ++ toString received ++
    " but expected e" ++ toString expected

/-- The unauthenticated-push error text of handle_push_req. -/
def authRequiredMsg : String := "Authentication required for push operations"

/-- The failed-authorization error text of the admin handlers. -/
def adminDeniedMsg : String := "Invalid admin secret or insufficient privileges"

/-- Stand-in for the database driver's str(e) when an INSERT violates the
seq_num primary key. -/
def pgDuplicateKeyMsg : String := "duplicate key value violates unique constraint"

/-- Result of handling one frame: the new server state, the frames written to
the requesting channel in order, the frame handed to broadcast_to_store (if
any), and the close code issued while handling (the handlers never close; the
endpoint closes only at handshake failure or on an unhandled exception). -/
structure HandlerOut where
  state : SState
  sent : List ServerMsg
  broadcasted : Option ServerMsg
  closeCode : Option Nat

/-- WebSocketHandler.handle_push_req: reject unauthenticated sessions with an
error frame; otherwise under the store's push semaphore (created on demand)
acknowledge an empty batch, or validate the first event's parent_seq_num
against the cached head, emitting the mismatch error on failure; on success
send PushAck, append the batch (chunked, primary-keyed) with the server
timestamp, advance the cached head to the last event's seq_num and broadcast
the batch as a PullRes with context push; a failing append surfaces the
storage error after the ack, leaving the head cache untouched. -/
def handlePushReq (st : SState) (storeId : String) (authenticated : Bool)
    (requestId : String) (batch : List EventEncoded) (createdAt : String)
    (failedSends : Finset Nat) : HandlerOut :=
  if !authenticated then
    ⟨st, [ServerMsg.error requestId authRequiredMsg], none, none⟩
  else
    let st1 := { st with sems := mapSet st.sems storeId true }
    match batch with
    | [] => ⟨st1, [ServerMsg.pushAck requestId], none, none⟩
    | first :: rest =>
      let expected := (st1.heads storeId).getD 0
      if first.parentSeqNum ≠ expected then
        ⟨st1, [ServerMsg.error requestId (invalidParentMsg first.parentSeqNum expected)],
         none, none⟩
      else
        let rows := (first :: rest).map (toStored createdAt)
        let res := appendEvents (st1.db storeId) rows
        if res.2 then
          let lastSeq := ((first :: rest).getLast (List.cons_ne_nil first rest)).seqNum
          let st2 := { st1 with db := mapSet st1.db storeId res.1,
                                heads := mapSet st1.heads storeId (some lastSeq) }
          let frame := ServerMsg.pullRes
            ((first :: rest).map (fun e => ⟨e, some createdAt⟩))
            ⟨ReqContext.push, requestId⟩ 0
          ⟨broadcastStep st2 storeId failedSends none,
           [ServerMsg.pushAck requestId], some frame, none⟩
        else
          ⟨{ st1 with db := mapSet st1.db storeId res.1 },
           [ServerMsg.pushAck requestId, ServerMsg.error requestId pgDuplicateKeyMsg],
           none, none⟩

/-- Fueled chunking loop of handle_pull_req: for each offset in
range(0, len(events), chunkSize) the chunk events[i : i + chunkSize] together
with remaining = max(0, len(events) - (i + chunkSize)), expressed relative to
the suffix that starts at the offset. -/
def pullChunksAux {α : Type} (chunkSize : Nat) : Nat → List α → List (List α × Nat)
  | _, [] => []
  | 0, _ :: _ => []
  | fuel + 1, a :: l =>
    ((a :: l).take chunkSize, (a :: l).length - chunkSize) ::
      pullChunksAux chunkSize fuel ((a :: l).drop chunkSize)

/-- The chunk list of handle_pull_req (fuel equal to the list length always
suffices for a positive chunk size). -/
def pullChunks {α : Type} (chunkSize : Nat) (l : List α) : List (List α × Nat) :=
  pullChunksAux chunkSize l.length l

/-- A row of the event list returned by get_events: the decoded event and the
optional createdAt metadata. -/
structure PullRow where
  eventEncoded : EventEncoded
  createdAt : Option String

deriving instance DecidableEq for PullRow

/-- Batch item built from a pulled row by handle_pull_req (metadata Some when
the row carries a createdAt, None otherwise). -/
def rowToItem (r : PullRow) : PullResBatchItem :=
  ⟨r.eventEncoded, r.createdAt⟩

/-- The PullRes frames emitted by handle_pull_req for an already-fetched
event list: exactly one empty frame when there are no events, otherwise one
frame per chunk carrying the chunk and its remaining count. -/
def pullFrames (chunkSize : Nat) (requestId : String) (rows : List PullRow) :
    List ServerMsg :=
  if rows.isEmpty then
    [ServerMsg.pullRes [] ⟨ReqContext.pull, requestId⟩ 0]
  else
    (pullChunks chunkSize rows).map
      (fun ch => ServerMsg.pullRes (ch.1.map rowToItem) ⟨ReqContext.pull, requestId⟩ ch.2)

/-- Ordered insertion of a row by ascending seq_num. -/
def insertBySeq (r : StoredEvent) : List StoredEvent → List StoredEvent
  | [] => [r]
  | x :: xs => if r.seqNum ≤ x.seqNum then r :: x :: xs else x :: insertBySeq r xs

/-- The ORDER BY seq_num ASC of get_events, as an insertion sort. -/
def sortBySeq : List StoredEvent → List StoredEvent
  | [] => []
  | x :: xs => insertBySeq x (sortBySeq xs)

/-- PostgresEventStore.get_events: select the rows with seq_num beyond the
cursor (all rows when the cursor is absent), ordered by ascending seq_num,
decoding a string args column through json.loads. -/
def getEvents (table : List StoredEvent) (cursor : Option Int) : List PullRow :=
  let selected := table.filter (fun r =>
    match cursor with
    | none => true
    | some cv => decide (cv < r.seqNum))
  let ordered := sortBySeq selected
  ordered.map (fun r =>
    ⟨⟨r.seqNum, r.parentSeqNum, r.name, pulledArgs r.args, r.clientId, r.sessionId⟩,
     some r.createdAt⟩)

/-- WebSocketHandler.handle_pull_req: fetch the events past the cursor and
stream them as chunked PullRes frames. -/
def handlePullReq (st : SState) (storeId : String) (chunkSize : Nat)
    (requestId : String) (cursor : Option Int) : List ServerMsg :=
  pullFrames chunkSize requestId (getEvents (st.db storeId) cursor)

/-- The configured settings the handlers read (config.py): the admin secret
and the pull chunk size (default 100). -/
structure Settings where
  adminSecret : String
  pullChunkSize : Nat

/-- WebSocketHandler.handle_admin_reset: authorized when the message secret
matches the configured admin secret or the session is marked admin; then the
store is dropped and recreated empty, the cached head set to 0 and a
AdminResetRoomRes emitted; otherwise a single error frame. -/
def handleAdminReset (st : SState) (storeId : String) (cfg : Settings)
    (isAdmin : Bool) (requestId : String) (adminSecret : String) :
    SState × List ServerMsg :=
  if adminSecret = cfg.adminSecret ∨ isAdmin then
    ({ st with db := mapSet st.db storeId [],
               heads := mapSet st.heads storeId (some 0) },
     [ServerMsg.adminResetRoomRes requestId])
  else
    (st, [ServerMsg.error requestId adminDeniedMsg])

/-- WebSocketHandler.handle_admin_info: same authorization as reset; returns
the synthetic durable-object id, the store id, the cached head (0 when
absent) and the subscriber count. -/
def handleAdminInfo (st : SState) (storeId : String) (cfg : Settings)
    (isAdmin : Bool) (requestId : String) (adminSecret : String) : List ServerMsg :=
  if adminSecret = cfg.adminSecret ∨ isAdmin then
    [ServerMsg.adminInfoRes requestId
      ⟨"python-server-" ++ storeId, storeId,
       (st.heads storeId).getD 0, ((st.conns storeId).getD ∅).card⟩]
  else
    [ServerMsg.error requestId adminDeniedMsg]

/-- WebSocketHandler.handle_ping: reply Pong, no state change. -/
def handlePing : List ServerMsg := [ServerMsg.pong]

/-- The elements of a JSON array as a Lean list. -/
def jsonArrElems : JsonArr → List Json
  | JsonArr.nil => []
  | JsonArr.cons x tl => x :: jsonArrElems tl

/-- The members of a JSON object as a Lean association list. -/
def jsonObjFields : JsonObj → List (String × Json)
  | JsonObj.nil => []
  | JsonObj.cons k v tl => (k, v) :: jsonObjFields tl

/-- Decoding of one batch element of a PushReq into an EventEncoded, as
pydantic validates it: integer seqNum and parentSeqNum, string name, clientId
and sessionId, optional args (absent or JSON null become None). -/
def decodeEventEncoded (v : Json) : Option EventEncoded :=
  match v with
  | Json.obj kvs =>
    let fields := jsonObjFields kvs
    (match jLookup fields "seqNum", jLookup fields "parentSeqNum",
           jStr (jLookup fields "name"), jStr (jLookup fields "clientId"),
           jStr (jLookup fields "sessionId") with
     | some (Json.num sn), some (Json.num pn), some nm, some cid, some sid =>
       some ⟨sn, pn, nm,
         (match jLookup fields "args" with
          | none => none
          | some Json.null => none
          | some a => some a), cid, sid⟩
     | _, _, _, _, _ => none)
  | _ => none

/-- The Python str() rendering used when an unknown tag value is interpolated
into the ValueError message of parse_client_message. -/
def pyTagRepr (v : Option Json) : String :=
  match v with
  | none => "None"
  | some Json.null => "None"
  | some (Json.bool true) => "True"
  | some (Json.bool false) => "False"
  | some (Json.num n) => toString n
  | some (Json.str s) => s
  | some v => jsonDumps v

/-- parse_client_message (message_types.py): dispatch on the _tag field of
the decoded frame, building the pydantic model for the five known tags and
raising ValueError with the unknown tag otherwise; a model whose required
fields are missing or badly typed raises a validation error. -/
def parseClientMessage (m : List (String × Json)) : Except String ClientMsg :=
  match jStr (jLookup m "_tag") with
  | some "WSMessage.PullReq" =>
    (match jStr (jLookup m "requestId") with
     | some rid =>
       Except.ok (ClientMsg.pullReq rid
         (match jLookup m "cursor" with
          | some (Json.num n) => some n
          | _ => none))
     | none => Except.error "validation error for PullReq")
  | some "WSMessage.PushReq" =>
    (match jStr (jLookup m "requestId"),
           (match jLookup m "batch" with
            | some (Json.arr xs) => (jsonArrElems xs).mapM decodeEventEncoded
            | _ => none) with
     | some rid, some b => Except.ok (ClientMsg.pushReq rid b)
     | _, _ => Except.error "validation error for PushReq")
  | some "WSMessage.AdminResetRoomReq" =>
    (match jStr (jLookup m "requestId"), jStr (jLookup m "adminSecret") with
     | some rid, some secret => Except.ok (ClientMsg.adminResetRoomReq rid secret)
     | _, _ => Except.error "validation error for AdminResetRoomReq")
  | some "WSMessage.AdminInfoReq" =>
    (match jStr (jLookup m "requestId"), jStr (jLookup m "adminSecret") with
     | some rid, some secret => Except.ok (ClientMsg.adminInfoReq rid secret)
     | _, _ => Except.error "validation error for AdminInfoReq")
  | some "WSMessage.Ping" =>
    (match jLookup m "requestId" with
     | none => Except.ok ClientMsg.ping
     | some (Json.str "ping") => Except.ok ClientMsg.ping
     | some _ => Except.error "validation error for Ping")
  | _ => Except.error ("Unknown message type: " ++ pyTagRepr (jLookup m "_tag"))

/-- The requestId extracted from the raw frame by the generic exception
handler of handle_message (msg_dict.get with default "unknown"). -/
def frameRequestId (m : List (String × Json)) : String :=
  match jLookup m "requestId" with
  | some (Json.str r) => r
  | _ => "unknown"

/-- WebSocketHandler.handle_message on a frame that decoded to a JSON object:
parse and dispatch to the per-tag handler; any exception (including the
ValueError that parse_client_message raises on an unknown tag) is caught and
answered with a single error frame carrying the extracted requestId, leaving
the channel open. -/
def handleMessage (st : SState) (storeId : String) (authenticated isAdmin : Bool)
    (cfg : Settings) (createdAt : String) (failedSends : Finset Nat)
    (frame : List (String × Json)) : HandlerOut :=
  match parseClientMessage frame with
  | Except.error e => ⟨st, [ServerMsg.error (frameRequestId frame) e], none, none⟩
  | Except.ok msg =>
    match msg with
    | ClientMsg.pullReq rid cursor =>
      ⟨st, handlePullReq st storeId cfg.pullChunkSize rid cursor, none, none⟩
    | ClientMsg.pushReq rid batch =>
      handlePushReq st storeId authenticated rid batch createdAt failedSends
    | ClientMsg.ping => ⟨st, handlePing, none, none⟩
    | ClientMsg.adminResetRoomReq rid secret =>
      let r := handleAdminReset st storeId cfg isAdmin rid secret
      ⟨r.1, r.2, none, none⟩
    | ClientMsg.adminInfoReq rid secret =>
      ⟨st, handleAdminInfo st storeId cfg isAdmin rid secret, none, none⟩

/-- re.sub applied per character in _get_table_name: every character outside
a-z, A-Z, 0-9 becomes an underscore. -/
def sanitizeStoreId (storeId : String) : String :=
  ⟨storeId.data.map (fun c => if c.isAlphanum then c else '_')⟩

/-- PostgresEventStore._get_table_name / Database._get_table_name: the
partition name derived from the persistence format version and the sanitized
store id. -/
def tableNameFor (version : Nat) (storeId : String) : String :=
  "eventlog_" ++ toString version ++ "_" ++ sanitizeStoreId storeId

/-- Two store ids of equal length that agree at every position except where
both characters are outside a-z, A-Z, 0-9. -/
def ExcludedEquiv (s t : String) : Prop :=
  s.data.length = t.data.length ∧
    ∀ p ∈ s.data.zip t.data,
      p.1 = p.2 ∨ (p.1.isAlphanum = false ∧ p.2.isAlphanum = false)

instance (s t : String) : Decidable (ExcludedEquiv s t) :=
  inferInstanceAs (Decidable (s.data.length = t.data.length ∧
    ∀ p ∈ s.data.zip t.data,
      p.1 = p.2 ∨ (p.1.isAlphanum = false ∧ p.2.isAlphanum = false)))

/-- The contiguity invariant claimed for a persisted store log: the i-th row
carries seq_num i + 1 and parent_seq_num i, so seq_num values are strictly
increasing from 1 with no gaps and every parent_seq_num equals the preceding
seq_num (0 for the first row). -/
def LogContiguous (l : List StoredEvent) : Prop :=
  ∀ i : Fin l.length,
    (l.get i).seqNum = (i.1 : Int) + 1 ∧ (l.get i).parentSeqNum = (i.1 : Int)

instance (l : List StoredEvent) : Decidable (LogContiguous l) :=
  inferInstanceAs (Decidable (∀ i : Fin l.length,
    (l.get i).seqNum = (i.1 : Int) + 1 ∧ (l.get i).parentSeqNum = (i.1 : Int)))

/-- Internal well-linkedness of a pushed batch: every event's seq_num is its
parent_seq_num + 1 and each event after the first names the previous event's
seq_num as its parent. -/
def BatchContiguous (batch : List EventEncoded) : Prop :=
  (∀ e ∈ batch, e.seqNum = e.parentSeqNum + 1) ∧
    batch.Chain' (fun a b => b.parentSeqNum = a.seqNum)

instance (batch : List EventEncoded) : Decidable (BatchContiguous batch) :=
  inferInstanceAs (Decidable ((∀ e ∈ batch, e.seqNum = e.parentSeqNum + 1) ∧
    batch.Chain' (fun (a b : EventEncoded) => b.parentSeqNum = a.seqNum)))

/-- The acceptance condition of handle_push_req: an authenticated push with a
nonempty batch whose first event's parent_seq_num equals the cached head
(0 when the cache has no entry). -/
def PushAccepted (st : SState) (storeId : String) (authenticated : Bool)
    (batch : List EventEncoded) : Prop :=
  authenticated = true ∧
    ∃ first rest, batch = first :: rest ∧
      first.parentSeqNum = (st.heads storeId).getD 0

/-- Server states reachable from the initial state through the state-changing
operations (connect, disconnect, push, admin reset), restricted to runs in
which every push the server accepts carries an internally contiguous batch;
rejected pushes are unrestricted. -/
inductive ReachableWF : SState → Prop where
  | init : ReachableWF initState
  | connect {st : SState} (h : ReachableWF st) (ws : Nat) (storeId : String) :
      ReachableWF (connectStep st ws storeId)
  | disconnect {st : SState} (h : ReachableWF st) (ws : Nat) (storeId : String) :
      ReachableWF (disconnectStep st ws storeId)
  | push {st : SState} (h : ReachableWF st) (storeId : String)
      (authenticated : Bool) (requestId : String) (batch : List EventEncoded)
      (createdAt : String) (failedSends : Finset Nat)
      (hwf : PushAccepted st storeId authenticated batch → BatchContiguous batch) :
      ReachableWF (handlePushReq st storeId authenticated requestId batch
        createdAt failedSends).state
  | adminReset {st : SState} (h : ReachableWF st) (storeId : String)
      (cfg : Settings) (isAdmin : Bool) (requestId adminSecret : String) :
      ReachableWF (handleAdminReset st storeId cfg isAdmin requestId adminSecret).1

/-- Every cached head equals the durable head of its store. -/
def HeadsOk (st : SState) : Prop :=
  ∀ s h, st.heads s = some h → h = dbHead (st.db s)

/-- A store with a nonempty subscriber set has a head-cache entry. -/
def ConnsHeads (st : SState) : Prop :=
  ∀ s S, st.conns s = some S → S.Nonempty → st.heads s ≠ none

/-- The joint inductive invariant of the sync server: all logs contiguous,
cached heads correct, and attached stores head-cached. -/
def Inv (st : SState) : Prop :=
  (∀ s, LogContiguous (st.db s)) ∧ HeadsOk st ∧ ConnsHeads st

/-- Run of claim C1's counterexample: one connection to an empty store and an
accepted push whose only event has seq_num 2 and parent_seq_num 0. -/
def c1Run : HandlerOut :=
  handlePushReq (connectStep initState 0 "s") "s" true "p1"
    [⟨2, 0, "x", none, "c1", "s1"⟩] "t0" ∅

/-- Run of claim C1's witness: one connection to an empty store and an
accepted push with the contiguous batch of events 1 and 2. -/
def c1WfState : SState :=
  (handlePushReq (connectStep initState 0 "w1") "w1" true "p1"
    [⟨1, 0, "x", none, "c1", "s1"⟩, ⟨2, 1, "y", none, "c1", "s1"⟩] "t0" ∅).state

/-- Run of claim C4's counterexample: one connection to an empty store and an
accepted two-event push whose second event's seq_num is below the first's. -/
def c4Run : HandlerOut :=
  handlePushReq (connectStep initState 0 "s4") "s4" true "p1"
    [⟨5, 0, "x", none, "c1", "s1"⟩, ⟨3, 5, "y", none, "c1", "s1"⟩] "t0" ∅

/-- State of claim C4's witness: one connection to an empty store followed by
an accepted contiguous push of the single event 1. -/
def c4WfState : SState :=
  (handlePushReq (connectStep initState 0 "w4") "w4" true "p1"
    [⟨1, 0, "x", none, "c1", "s1"⟩] "t0" ∅).state

/-- The unknown-tag frame of claim C6. -/
def c6Frame : List (String × Json) :=
  [("_tag", Json.str "WSMessage.Bogus"), ("requestId", Json.str "r9")]

/-- A Ping frame (requestId defaulted by the pydantic model). -/
def pingFrame : List (String × Json) :=
  [("_tag", Json.str "WSMessage.Ping")]

/-- Concrete manager state of claim C10's witness: store b has the single
subscriber 0, a cached head 5 and an allocated push semaphore. -/
def c10State : SState :=
  { db := fun _ => [],
    conns := fun x => if x = "b" then some {0} else none,
    heads := fun x => if x = "b" then some 5 else none,
    sems := fun x => decide (x = "b") }

/-- Three fetched rows used by claim C3's witness. -/
def c3Rows : List PullRow :=
  [⟨⟨1, 0, "a", none, "c", "s"⟩, some "t"⟩,
   ⟨⟨2, 1, "b", none, "c", "s"⟩, some "t"⟩,
   ⟨⟨3, 2, "c", none, "c", "s"⟩, some "t"⟩]

theorem mapSet_same {α : Type} (f : String → α) (k : String) (v : α) :
    mapSet f k v k = v := by
  simp [mapSet]

theorem mapSet_ne {α : Type} (f : String → α) (k : String) (v : α) {x : String}
    (h : x ≠ k) : mapSet f k v x = f x := by
  simp [mapSet, h]

/-- Claim C2: an authenticated push whose nonempty batch opens with a
parent_seq_num different from the cached head yields exactly one error frame
with the exact mismatch message, no broadcast, no close, and leaves the
tables, the head cache and the subscriber sets unchanged (only the on-demand
push semaphore is allocated). -/
theorem C2_parent_mismatch_rejected (st : SState) (storeId requestId createdAt : String)
    (failedSends : Finset Nat) (first : EventEncoded) (rest : List EventEncoded)
    (hne : first.parentSeqNum ≠ (st.heads storeId).getD 0) :
    handlePushReq st storeId true requestId (first :: rest) createdAt failedSends =
      ⟨{ st with sems := mapSet st.sems storeId true },
       [ServerMsg.error requestId
          (invalidParentMsg first.parentSeqNum ((st.heads storeId).getD 0))],
       none, none⟩ ∧
    (handlePushReq st storeId true requestId (first :: rest) createdAt failedSends).state.db
      = st.db ∧
    (handlePushReq st storeId true requestId (first :: rest) createdAt failedSends).state.heads
      = st.heads ∧
    (handlePushReq st storeId true requestId (first :: rest) createdAt failedSends).state.conns
      = st.conns := by
  have h0 : handlePushReq st storeId true requestId (first :: rest) createdAt failedSends =
      ⟨{ st with sems := mapSet st.sems storeId true },
       [ServerMsg.error requestId
          (invalidParentMsg first.parentSeqNum ((st.heads storeId).getD 0))],
       none, none⟩ := by
    simp [handlePushReq, hne]
  exact ⟨h0, by rw [h0], by rw [h0], by rw [h0]⟩

/-- Witness for C2 at the seed scenario S3: store head 0 and a push whose
first event names parent 5 produces the error about e5 versus e0. -/
theorem C2_witness :
    (5 : Int) ≠ ((initState.heads "s").getD 0) ∧
    handlePushReq initState "s" true "p2" [⟨6, 5, "x", none, "c1", "s1"⟩] "t0" ∅ =
      ⟨{ initState with sems := mapSet initState.sems "s" true },
       [ServerMsg.error "p2" "Invalid parent event number. Received e5 but expected e0"],
       none, none⟩ :=
  ⟨by decide,
   (C2_parent_mismatch_rejected initState "s" "p2" "t0" ∅
      ⟨6, 5, "x", none, "c1", "s1"⟩ [] (by decide)).1⟩

/-- Claim C5 (code bug): append_events stores a non-string args value as its
json.dumps string rather than the structured value, and a pushed string args
whose content is valid JSON comes back from get_events as the decoded value,
so the push-pull round trip is not the identity. -/
theorem C5_args_stringified :
    storedArgsOf (some (Json.obj (JsonObj.cons "k" (Json.num 1) JsonObj.nil)))
      = some (Json.str "\x7b\"k\": 1\x7d") ∧
    storedArgsOf (some (Json.obj (JsonObj.cons "k" (Json.num 1) JsonObj.nil)))
      ≠ some (Json.obj (JsonObj.cons "k" (Json.num 1) JsonObj.nil)) ∧
    pulledArgs (storedArgsOf (some (Json.str "123"))) = some (Json.num 123) ∧
    pulledArgs (storedArgsOf (some (Json.str "123"))) ≠ some (Json.str "123") := by
  refine ⟨rfl, by decide, rfl, by decide⟩

/-- Claim C6 (code bug): a valid JSON frame with an unsupported tag is not
ignored; parse_client_message raises, the generic handler catches, and a
single error frame naming the unknown tag is sent back (state unchanged,
channel open). -/
theorem C6_unknown_tag_answered_with_error :
    handleMessage initState "s6" true false ⟨"secret", 100⟩ "t0" ∅ c6Frame =
      ⟨initState,
       [ServerMsg.error "r9" "Unknown message type: WSMessage.Bogus"],
       none, none⟩ := rfl

/-- Claim C7: a push on an unauthenticated session yields exactly one error
frame with the authentication message and the same requestId, touches nothing
(no append, no broadcast, no head-cache change, no semaphore allocation, no
close), and a subsequent Ping on the same session still yields Pong. -/
theorem C7_unauthenticated_push (st : SState) (storeId requestId createdAt : String)
    (batch : List EventEncoded) (failedSends : Finset Nat) (isAdmin : Bool)
    (cfg : Settings) (createdAt2 : String) (failedSends2 : Finset Nat) :
    handlePushReq st storeId false requestId batch createdAt failedSends =
      ⟨st, [ServerMsg.error requestId authRequiredMsg], none, none⟩ ∧
    handleMessage st storeId false isAdmin cfg createdAt2 failedSends2 pingFrame =
      ⟨st, [ServerMsg.pong], none, none⟩ :=
  ⟨rfl, rfl⟩

/-- Claim C8: for both admin commands the privileged action runs exactly when
the message's adminSecret equals the configured secret or the session is
marked admin; otherwise both emit a single error frame and change nothing. -/
theorem C8_admin_authorization (st : SState) (storeId : String) (cfg : Settings)
    (isAdmin : Bool) (requestId adminSecret : String) :
    ((handleAdminReset st storeId cfg isAdmin requestId adminSecret).2 =
        [ServerMsg.adminResetRoomRes requestId] ↔
      (adminSecret = cfg.adminSecret ∨ isAdmin = true)) ∧
    ((adminSecret = cfg.adminSecret ∨ isAdmin = true) →
      handleAdminReset st storeId cfg isAdmin requestId adminSecret =
        ({ st with db := mapSet st.db storeId [],
                   heads := mapSet st.heads storeId (some 0) },
         [ServerMsg.adminResetRoomRes requestId]) ∧
      handleAdminInfo st storeId cfg isAdmin requestId adminSecret =
        [ServerMsg.adminInfoRes requestId
          ⟨"python-server-" ++ storeId, storeId,
           (st.heads storeId).getD 0, ((st.conns storeId).getD ∅).card⟩]) ∧
    (¬(adminSecret = cfg.adminSecret ∨ isAdmin = true) →
      handleAdminReset st storeId cfg isAdmin requestId adminSecret =
        (st, [ServerMsg.error requestId adminDeniedMsg]) ∧
      handleAdminInfo st storeId cfg isAdmin requestId adminSecret =
        [ServerMsg.error requestId adminDeniedMsg]) := by
  by_cases h : adminSecret = cfg.adminSecret ∨ isAdmin = true
  · refine ⟨?_, fun _ => ⟨?_, ?_⟩, fun hc => absurd h hc⟩ <;>
      simp [handleAdminReset, handleAdminInfo, h]
  · refine ⟨?_, fun hc => absurd hc h, fun _ => ⟨?_, ?_⟩⟩ <;>
      simp [handleAdminReset, handleAdminInfo, h]

/-- Witness for C8: with the configured secret abc, a matching reset request
on a non-admin session resets the store, and a wrong secret is refused. -/
theorem C8_witness :
    handleAdminReset initState "a" ⟨"abc", 100⟩ false "r1" "abc" =
      ({ initState with db := mapSet initState.db "a" [],
                        heads := mapSet initState.heads "a" (some 0) },
       [ServerMsg.adminResetRoomRes "r1"]) ∧
    handleAdminReset initState "a" ⟨"abc", 100⟩ false "r2" "bad" =
      (initState, [ServerMsg.error "r2" adminDeniedMsg]) :=
  ⟨((C8_admin_authorization initState "a" ⟨"abc", 100⟩ false "r1" "abc").2.1
      (Or.inl rfl)).1,
   ((C8_admin_authorization initState "a" ⟨"abc", 100⟩ false "r2" "bad").2.2
      (by decide)).1⟩

theorem sanitizeMapCongr :
    ∀ (l1 l2 : List Char), l1.length = l2.length →
      (∀ p ∈ l1.zip l2, p.1 = p.2 ∨ (p.1.isAlphanum = false ∧ p.2.isAlphanum = false)) →
      l1.map (fun c => if c.isAlphanum then c else '_') =
        l2.map (fun c => if c.isAlphanum then c else '_')
  | [], [], _, _ => rfl
  | [], _ :: _, hlen, _ => by simp at hlen
  | _ :: _, [], hlen, _ => by simp at hlen
  | a :: l1, b :: l2, hlen, hp => by
    have htl : l1.map (fun c => if c.isAlphanum then c else '_') =
        l2.map (fun c => if c.isAlphanum then c else '_') :=
      sanitizeMapCongr l1 l2 (by simpa using hlen)
        (fun p hm => hp p (by simp [List.zip_cons_cons, hm]))
    have hh : (a, b) ∈ (a :: l1).zip (b :: l2) := by simp [List.zip_cons_cons]
    rcases hp _ hh with heq | ⟨ha, hb⟩
    · simp only [List.map_cons, htl]
      rw [show a = b from heq]
    · simp only [List.map_cons, htl, ha, hb]
      simp

/-- Claim C9: the partition name is the pure function
eventlog_(version)_(sanitized id) of the store id and the fixed persistence
format version; ids differing only at positions where both characters are
excluded map to the same partition, and equal ids always map to the same
partition. -/
theorem C9_partition_naming (version : Nat) (s t : String) (h : ExcludedEquiv s t) :
    tableNameFor version s = tableNameFor version t ∧
    tableNameFor version s =
      "eventlog_" ++ toString version ++ "_" ++ sanitizeStoreId s ∧
    (∀ u, u = s → tableNameFor version u = tableNameFor version s) := by
  refine ⟨?_, rfl, fun u hu => by rw [hu]⟩
  have hs : sanitizeStoreId s = sanitizeStoreId t := by
    apply congrArg String.mk
    exact sanitizeMapCongr s.data t.data h.1 h.2
  unfold tableNameFor
  rw [hs]

/-- Witness for C9: a-b and a.b differ only at the excluded middle character
and share the partition name. -/
theorem C9_witness :
    ExcludedEquiv "a-b" "a.b" ∧ tableNameFor 7 "a-b" = tableNameFor 7 "a.b" :=
  ⟨by decide, (C9_partition_naming 7 "a-b" "a.b" (by decide)).1⟩

theorem pullChunksAux_closed {α : Type} (c : Nat) (hc : 0 < c) :
    ∀ (fuel : Nat) (l : List α), l.length ≤ fuel →
      pullChunksAux c fuel l =
        (List.range ((l.length + c - 1) / c)).map
          (fun i => ((l.drop (i * c)).take c, l.length - (i + 1) * c)) := by
  intro fuel
  induction fuel with
  | zero =>
    intro l hl
    have hl0 : l = [] := List.eq_nil_of_length_eq_zero (Nat.le_zero.mp hl)
    subst hl0
    have hz : (c - 1) / c = 0 := Nat.div_eq_of_lt (by omega)
    simp [pullChunksAux, hz]
  | succ fuel ih =>
    intro l hl
    match l with
    | [] =>
      have hz : (c - 1) / c = 0 := Nat.div_eq_of_lt (by omega)
      simp [pullChunksAux, hz]
    | a :: tl =>
      have hlen : 0 < (a :: tl).length := by simp
      have hdl : ((a :: tl).drop c).length = (a :: tl).length - c := by
        simp [List.length_drop]
      have hrec := ih ((a :: tl).drop c) (by omega)
      have hk : ((a :: tl).length + c - 1) / c =
          (((a :: tl).length - c) + c - 1) / c + 1 := by
        have e1 : (a :: tl).length + c - 1 = ((a :: tl).length - 1) + c := by omega
        rw [e1, Nat.add_div_right _ hc]
        rcases le_or_lt c (a :: tl).length with hcl | hcl
        · have e2 : ((a :: tl).length - c) + c - 1 = (a :: tl).length - 1 := by omega
          rw [e2]
        · have e2 : (a :: tl).length - c = 0 := by omega
          rw [e2]
          rw [Nat.div_eq_of_lt (by omega), Nat.div_eq_of_lt (by omega)]
      show ((a :: tl).take c, (a :: tl).length - c) ::
          pullChunksAux c fuel ((a :: tl).drop c) = _
      rw [hrec, hdl, hk, List.range_succ_eq_map, List.map_cons, List.map_map]
      refine congrArg₂ (· :: ·) (by simp) ?_
      apply List.map_congr_left
      intro i _
      simp only [Function.comp]
      refine congrArg₂ Prod.mk ?_ ?_
      · rw [List.drop_drop]
        have hmul : c + i * c = i.succ * c := by
          rw [Nat.succ_eq_add_one]; ring
        rw [hmul]
      · rw [Nat.sub_sub]
        have hmul : c + (i + 1) * c = (i.succ + 1) * c := by
          rw [Nat.succ_eq_add_one]; ring
        rw [hmul]

theorem pullChunks_closed {α : Type} (c : Nat) (hc : 0 < c) (l : List α) :
    pullChunks c l =
      (List.range ((l.length + c - 1) / c)).map
        (fun i => ((l.drop (i * c)).take c, l.length - (i + 1) * c)) :=
  pullChunksAux_closed c hc l.length l le_rfl

theorem ceil_mul_covers (n c : Nat) (hc : 0 < c) :
    n - ((n + c - 1) / c) * c = 0 := by
  rcases Nat.eq_zero_or_pos n with h0 | hn
  · simp [h0]
  apply Nat.sub_eq_zero_of_le
  have e1 : (n + c - 1) / c = (n - 1) / c + 1 := by
    have e2 : n + c - 1 = (n - 1) + c := by omega
    rw [e2, Nat.add_div_right _ hc]
  rw [e1]
  have hdm := Nat.div_add_mod (n - 1) c
  have hml : (n - 1) % c < c := Nat.mod_lt _ hc
  have e3 : ((n - 1) / c + 1) * c = c * ((n - 1) / c) + c := by ring
  rw [e3]
  generalize c * ((n - 1) / c) = m at hdm
  omega

/-- Claim C3: on an empty fetched list the pull handler emits exactly one
empty PullRes with remaining 0; otherwise it emits one frame per ceiling
chunk, the i-th frame carrying rows[i * C : i * C + C] in order with
remaining equal to the rows left after that chunk, and the final chunk covers
the rest so the last frame's remaining is 0. -/
theorem C3_pull_chunking (chunkSize : Nat) (hc : 0 < chunkSize)
    (requestId : String) (rows : List PullRow) :
    (rows = [] → pullFrames chunkSize requestId rows =
      [ServerMsg.pullRes [] ⟨ReqContext.pull, requestId⟩ 0]) ∧
    (rows ≠ [] →
      (pullFrames chunkSize requestId rows).length =
        (rows.length + chunkSize - 1) / chunkSize ∧
      (∀ i : Fin (pullFrames chunkSize requestId rows).length,
        (pullFrames chunkSize requestId rows).get i =
          ServerMsg.pullRes
            (((rows.drop (i.1 * chunkSize)).take chunkSize).map rowToItem)
            ⟨ReqContext.pull, requestId⟩
            (rows.length - (i.1 + 1) * chunkSize)) ∧
      rows.length - ((rows.length + chunkSize - 1) / chunkSize) * chunkSize = 0) := by
  constructor
  · intro h
    simp [pullFrames, h]
  · intro hne
    have hne' : rows.isEmpty = false := by
      simp [List.isEmpty_iff_eq_nil, hne]
    have hpf : pullFrames chunkSize requestId rows =
        (pullChunks chunkSize rows).map
          (fun ch => ServerMsg.pullRes (ch.1.map rowToItem)
            ⟨ReqContext.pull, requestId⟩ ch.2) := by
      simp [pullFrames, hne']
    rw [hpf, pullChunks_closed chunkSize hc rows]
    refine ⟨by simp, fun i => ?_, ceil_mul_covers rows.length chunkSize hc⟩
    have hi : i.1 < (List.range ((rows.length + chunkSize - 1) / chunkSize)).length := by
      have := i.2
      simpa using this
    simp [List.get_map, List.get_range]

/-- Witness for C3 at chunk size 2 over three rows: two frames are emitted,
the ceiling of 3 / 2. -/
theorem C3_witness :
    (pullFrames 2 "r1" c3Rows).length = (c3Rows.length + 2 - 1) / 2 :=
  ((C3_pull_chunking 2 (by decide) "r1" c3Rows).2 (by decide)).1

/-- Claim C10: broadcast_to_store touches only the subscriber set of the
targeted store, removing exactly the non-excluded channels whose send failed;
the head cache and semaphore registry are untouched for every store, so even
when the removal empties the set the head-cache entry and semaphore stay
allocated, and only disconnect (on emptying the set) releases them. -/
theorem C10_broadcast_frame_effect (st : SState) (storeId : String)
    (failedSends : Finset Nat) (exclude : Option Nat) (S : Finset Nat)
    (hS : st.conns storeId = some S) :
    (∀ s, (broadcastStep st storeId failedSends exclude).heads s = st.heads s) ∧
    (∀ s, (broadcastStep st storeId failedSends exclude).sems s = st.sems s) ∧
    (∀ s, (broadcastStep st storeId failedSends exclude).db s = st.db s) ∧
    (broadcastStep st storeId failedSends exclude).conns storeId =
      some (S.filter (fun c => some c = exclude ∨ c ∉ failedSends)) ∧
    (∀ s, s ≠ storeId →
      (broadcastStep st storeId failedSends exclude).conns s = st.conns s) ∧
    (∀ c, c ∈ S.filter (fun c => some c = exclude ∨ c ∉ failedSends) ↔
      c ∈ S ∧ (some c = exclude ∨ c ∉ failedSends)) ∧
    (∀ (t : SState) (ws : Nat) (sid : String) (S2 : Finset Nat),
      t.conns sid = some S2 → S2.erase ws = ∅ →
        (disconnectStep t ws sid).conns sid = none ∧
        (disconnectStep t ws sid).heads sid = none ∧
        (disconnectStep t ws sid).sems sid = false) := by
  refine ⟨fun s => ?_, fun s => ?_, fun s => ?_, ?_, fun s hss => ?_, fun c => ?_,
    fun t ws sid S2 hS2 hers => ?_⟩
  · simp [broadcastStep, hS]
  · simp [broadcastStep, hS]
  · simp [broadcastStep, hS]
  · simp [broadcastStep, hS, mapSet_same]
  · simp [broadcastStep, hS, mapSet_ne _ _ _ hss]
  · simp [Finset.mem_filter]
  · simp [disconnectStep, hS2, hers, mapSet_same]

theorem logContiguous_nil : LogContiguous [] := by
  intro i
  exact absurd i.2 (by simp)

theorem chainIdx :
    ∀ (batch : List EventEncoded) (base : Int),
      (∀ e ∈ batch, e.seqNum = e.parentSeqNum + 1) →
      List.Chain' (fun a b => b.parentSeqNum = a.seqNum) batch →
      (∀ f ∈ batch.head?, f.parentSeqNum = base) →
      ∀ (j : Nat) (hj : j < batch.length),
        (batch.get ⟨j, hj⟩).parentSeqNum = base + j ∧
        (batch.get ⟨j, hj⟩).seqNum = base + j + 1 := by
  intro batch
  induction batch with
  | nil => intro base _ _ _ j hj; simp at hj
  | cons f bs ih =>
    intro base hseq hch hhd j hj
    have hf : f.parentSeqNum = base := hhd f (by simp)
    have hfs : f.seqNum = f.parentSeqNum + 1 := hseq f (by simp)
    rcases List.chain'_cons'.mp hch with ⟨hhd2, hch2⟩
    match j with
    | 0 =>
      refine ⟨?_, ?_⟩
      · show f.parentSeqNum = base + (0 : Nat)
        simp [hf]
      · show f.seqNum = base + (0 : Nat) + 1
        simp [hfs, hf]
    | jj + 1 =>
      have hj2 : jj < bs.length := by simpa using hj
      have hrec := ih f.seqNum (fun e he => hseq e (by simp [he])) hch2 hhd2 jj hj2
      have h1 : f.seqNum = base + 1 := by omega
      have hcast : ((jj + 1 : Nat) : Int) = (jj : Int) + 1 := by omega
      refine ⟨?_, ?_⟩
      · show (bs.get ⟨jj, hj2⟩).parentSeqNum = base + ((jj + 1 : Nat) : Int)
        rw [hcast]
        omega
      · show (bs.get ⟨jj, hj2⟩).seqNum = base + ((jj + 1 : Nat) : Int) + 1
        rw [hcast]
        omega

theorem foldlMaxSeqEq :
    ∀ (xs : List StoredEvent) (x M : Int), x ≤ M → (∀ y ∈ xs, y.seqNum ≤ M) →
      (x = M ∨ ∃ y ∈ xs, y.seqNum = M) →
      xs.foldl (fun acc r => max acc r.seqNum) x = M := by
  intro xs
  induction xs with
  | nil =>
    intro x M hx _ hm
    rcases hm with h | h
    · simpa using h
    · simp at h
  | cons a as ih =>
    intro x M hx hall hm
    show as.foldl (fun acc r => max acc r.seqNum) (max x a.seqNum) = M
    apply ih
    · exact max_le hx (hall a (by simp))
    · intro y hy
      exact hall y (by simp [hy])
    · rcases hm with h | ⟨y, hy, hyM⟩
      · left
        rw [h]
        exact max_eq_left (hall a (by simp))
      · rcases List.mem_cons.mp hy with h1 | h1
        · left
          rw [h1] at hyM
          rw [hyM]
          exact max_eq_right hx
        · right
          exact ⟨y, h1, hyM⟩

theorem logContiguous_mem_le (l : List StoredEvent) (h : LogContiguous l) :
    ∀ r ∈ l, r.seqNum ≤ (l.length : Int) := by
  intro r hr
  obtain ⟨⟨i, hi⟩, hg⟩ := List.mem_iff_get.mp hr
  have := (h ⟨i, hi⟩).1
  rw [hg] at this
  have hle : (i : Int) + 1 ≤ (l.length : Int) := by
    have hlt : i < l.length := hi
    omega
  omega

theorem dbHead_contiguous (l : List StoredEvent) (h : LogContiguous l) :
    dbHead l = (l.length : Int) := by
  match l with
  | [] => simp [dbHead]
  | e :: rest =>
    have he : e.seqNum = 1 := by
      have := (h ⟨0, by simp⟩).1
      simpa using this
    show rest.foldl (fun acc r => max acc r.seqNum) e.seqNum = ((e :: rest).length : Int)
    apply foldlMaxSeqEq
    · rw [he]
      simp only [List.length_cons]
      omega
    · intro y hy
      exact logContiguous_mem_le _ h y (by simp [hy])
    · match rest with
      | [] =>
        left
        rw [he]
        simp
      | r :: rs =>
        right
        have hb : rs.length < (r :: rs).length := by simp
        refine ⟨(r :: rs).get ⟨rs.length, hb⟩, List.get_mem _ _ _, ?_⟩
        have hidx : rs.length + 1 < (e :: r :: rs).length := by simp
        have hseq := (h ⟨rs.length + 1, hidx⟩).1
        have hgg : (e :: r :: rs).get ⟨rs.length + 1, hidx⟩ =
            (r :: rs).get ⟨rs.length, hb⟩ := rfl
        rw [hgg] at hseq
        rw [hseq]
        simp only [List.length_cons]
        push_cast
        ring

theorem batchSeqNodup (first : EventEncoded) (rest : List EventEncoded)
    (hb1 : ∀ e ∈ (first :: rest), e.seqNum = e.parentSeqNum + 1)
    (hb2 : List.Chain' (fun a b => b.parentSeqNum = a.seqNum) (first :: rest)) :
    (((first :: rest).map EventEncoded.seqNum)).Nodup := by
  rw [List.nodup_iff_injective_get]
  intro ⟨i, hi⟩ ⟨j, hj⟩ hij
  have hi' : i < (first :: rest).length := by simpa using hi
  have hj' : j < (first :: rest).length := by simpa using hj
  have hgi : ((first :: rest).map EventEncoded.seqNum).get ⟨i, hi⟩ =
      ((first :: rest).get ⟨i, hi'⟩).seqNum := by
    simp only [List.get_eq_getElem, List.getElem_map]
  have hgj : ((first :: rest).map EventEncoded.seqNum).get ⟨j, hj⟩ =
      ((first :: rest).get ⟨j, hj'⟩).seqNum := by
    simp only [List.get_eq_getElem, List.getElem_map]
  have hci := (chainIdx (first :: rest) first.parentSeqNum hb1 hb2
    (fun f hf => by simp at hf; rw [hf]) i hi').2
  have hcj := (chainIdx (first :: rest) first.parentSeqNum hb1 hb2
    (fun f hf => by simp at hf; rw [hf]) j hj').2
  rw [hgi, hgj, hci, hcj] at hij
  have : (i : Int) = (j : Int) := by omega
  have hnat : i = j := by exact_mod_cast this
  simp [hnat]

theorem batchSeqLb (first : EventEncoded) (rest : List EventEncoded)
    (hb1 : ∀ e ∈ (first :: rest), e.seqNum = e.parentSeqNum + 1)
    (hb2 : List.Chain' (fun a b => b.parentSeqNum = a.seqNum) (first :: rest)) :
    ∀ e ∈ (first :: rest), first.parentSeqNum + 1 ≤ e.seqNum := by
  intro e he
  obtain ⟨⟨i, hi⟩, hg⟩ := List.mem_iff_get.mp he
  have := (chainIdx (first :: rest) first.parentSeqNum hb1 hb2
    (fun f hf => by simp at hf; rw [hf]) i hi).2
  rw [hg] at this
  have : e.seqNum = first.parentSeqNum + i + 1 := this
  have hnn : (0 : Int) ≤ (i : Int) := by positivity
  omega

theorem logContiguous_append (l : List StoredEvent) (first : EventEncoded)
    (rest : List EventEncoded) (createdAt : String) (hl : LogContiguous l)
    (hb1 : ∀ e ∈ (first :: rest), e.seqNum = e.parentSeqNum + 1)
    (hb2 : List.Chain' (fun a b => b.parentSeqNum = a.seqNum) (first :: rest))
    (hhd : first.parentSeqNum = (l.length : Int)) :
    LogContiguous (l ++ (first :: rest).map (toStored createdAt)) := by
  intro i
  have hlen : (l ++ (first :: rest).map (toStored createdAt)).length =
      l.length + (rest.length + 1) := by
    simp
  by_cases hi : i.1 < l.length
  · have hval : (l ++ (first :: rest).map (toStored createdAt)).get i =
        l.get ⟨i.1, hi⟩ := by
      simp only [List.get_eq_getElem]
      exact List.getElem_append_left hi
    rw [hval]
    exact hl ⟨i.1, hi⟩
  · have hi2 : i.1 < l.length + (rest.length + 1) := by
      have := i.2
      omega
    have hj : i.1 - l.length < ((first :: rest).map (toStored createdAt)).length := by
      simp only [List.length_map, List.length_cons]
      omega
    have hj2 : i.1 - l.length < (first :: rest).length := by
      simpa using hj
    have hval : (l ++ (first :: rest).map (toStored createdAt)).get i =
        toStored createdAt ((first :: rest).get ⟨i.1 - l.length, hj2⟩) := by
      have h1 : (l ++ (first :: rest).map (toStored createdAt)).get i =
          ((first :: rest).map (toStored createdAt)).get ⟨i.1 - l.length, hj⟩ := by
        simp only [List.get_eq_getElem]
        exact List.getElem_append_right (by omega)
      have h2 : ((first :: rest).map (toStored createdAt)).get ⟨i.1 - l.length, hj⟩ =
          toStored createdAt ((first :: rest).get ⟨i.1 - l.length, hj2⟩) := by
        simp only [List.get_eq_getElem, List.getElem_map]
      exact h1.trans h2
    have hc := chainIdx (first :: rest) first.parentSeqNum hb1 hb2
      (fun f hf => by simp at hf; rw [hf]) (i.1 - l.length) hj2
    have hcast : ((i.1 - l.length : Nat) : Int) = (i.1 : Int) - (l.length : Int) := by
      omega
    rw [hval]
    constructor
    · show ((first :: rest).get ⟨i.1 - l.length, hj2⟩).seqNum = (i.1 : Int) + 1
      rw [hc.2, hhd, hcast]
      ring
    · show ((first :: rest).get ⟨i.1 - l.length, hj2⟩).parentSeqNum = (i.1 : Int)
      rw [hc.1, hhd, hcast]
      ring

theorem lastSeqEq (first : EventEncoded) (rest : List EventEncoded)
    (hb1 : ∀ e ∈ (first :: rest), e.seqNum = e.parentSeqNum + 1)
    (hb2 : List.Chain' (fun a b => b.parentSeqNum = a.seqNum) (first :: rest)) :
    ((first :: rest).getLast (List.cons_ne_nil first rest)).seqNum =
      first.parentSeqNum + (rest.length : Int) + 1 := by
  have hlen : (first :: rest).length - 1 < (first :: rest).length := by simp
  have hgl : (first :: rest).getLast (List.cons_ne_nil first rest) =
      (first :: rest).get ⟨(first :: rest).length - 1, hlen⟩ :=
    List.getLast_eq_get _ _
  have hc := (chainIdx (first :: rest) first.parentSeqNum hb1 hb2
    (fun f hf => by simp at hf; rw [hf]) ((first :: rest).length - 1) hlen).2
  rw [hgl, hc]
  have : (((first :: rest).length - 1 : Nat) : Int) = (rest.length : Int) := by
    simp
  rw [this]

theorem appendAux_ok :
    ∀ (fuel : Nat) (table bs : List StoredEvent),
      bs.length ≤ fuel →
      (bs.map StoredEvent.seqNum).Nodup →
      (∀ e ∈ bs, ∀ r ∈ table, e.seqNum ≠ r.seqNum) →
      appendAux fuel table bs = (table ++ bs, true) := by
  intro fuel
  induction fuel with
  | zero =>
    intro table bs hl _ _
    have hbs : bs = [] := List.eq_nil_of_length_eq_zero (Nat.le_zero.mp hl)
    subst hbs
    simp [appendAux]
  | succ fuel ih =>
    intro table bs hl hnd hdis
    match bs with
    | [] => simp [appendAux]
    | b :: bs2 =>
      have hok : chunkOkB table ((b :: bs2).take 100) = true := by
        rw [chunkOkB, Bool.and_eq_true]
        constructor
        · rw [List.all_eq_true]
          intro e he
          rw [List.all_eq_true]
          intro r hr
          simp only [bne_iff_ne, ne_eq]
          exact hdis e (List.take_subset _ _ he) r hr
        · rw [decide_eq_true_eq, List.map_take]
          exact List.Nodup.sublist (List.take_sublist _ _) hnd
      have hstep : appendAux (fuel + 1) table (b :: bs2) =
          appendAux fuel (table ++ (b :: bs2).take 100) ((b :: bs2).drop 100) := by
        simp only [appendAux]
        rw [if_pos hok]
      rw [hstep]
      have hlen2 : ((b :: bs2).drop 100).length ≤ fuel := by
        simp only [List.length_drop, List.length_cons] at hl ⊢
        omega
      have hnd2 : (((b :: bs2).drop 100).map StoredEvent.seqNum).Nodup := by
        rw [List.map_drop]
        exact List.Nodup.sublist (List.drop_sublist _ _) hnd
      have hdis2 : ∀ e ∈ (b :: bs2).drop 100, ∀ r ∈ table ++ (b :: bs2).take 100,
          e.seqNum ≠ r.seqNum := by
        intro e he r hr
        rcases List.mem_append.mp hr with h1 | h1
        · exact hdis e (List.drop_subset _ _ he) r h1
        · have hnd3 := hnd
          have hsplit : (b :: bs2).map StoredEvent.seqNum =
              ((b :: bs2).take 100).map StoredEvent.seqNum ++
                ((b :: bs2).drop 100).map StoredEvent.seqNum := by
            rw [← List.map_append, List.take_append_drop]
          rw [hsplit] at hnd3
          rcases List.nodup_append.mp hnd3 with ⟨_, _, hdisj⟩
          intro heq
          exact hdisj (List.mem_map_of_mem _ h1) (heq ▸ List.mem_map_of_mem _ he)
      rw [ih _ _ hlen2 hnd2 hdis2, List.append_assoc, List.take_append_drop]

theorem appendAux_fail_first (fuel : Nat) (table : List StoredEvent)
    (b : StoredEvent) (bs2 : List StoredEvent)
    (hconf : ∃ e ∈ (b :: bs2).take 100, ∃ r ∈ table, e.seqNum = r.seqNum) :
    appendAux (fuel + 1) table (b :: bs2) = (table, false) := by
  have hok : ¬ (chunkOkB table ((b :: bs2).take 100) = true) := by
    intro hk
    obtain ⟨e, he, r, hr, heq⟩ := hconf
    rw [chunkOkB, Bool.and_eq_true] at hk
    have h1 := hk.1
    rw [List.all_eq_true] at h1
    have h2 := h1 e he
    rw [List.all_eq_true] at h2
    have h3 := h2 r hr
    simp only [bne_iff_ne, ne_eq] at h3
    exact h3 heq
  simp only [appendAux]
  rw [if_neg hok]

theorem appendEvents_ok (table bs : List StoredEvent)
    (hnd : (bs.map StoredEvent.seqNum).Nodup)
    (hdis : ∀ e ∈ bs, ∀ r ∈ table, e.seqNum ≠ r.seqNum) :
    appendEvents table bs = (table ++ bs, true) :=
  appendAux_ok bs.length table bs le_rfl hnd hdis

theorem appendEvents_fail (table : List StoredEvent) (b : StoredEvent)
    (bs2 : List StoredEvent)
    (hconf : ∃ e ∈ (b :: bs2).take 100, ∃ r ∈ table, e.seqNum = r.seqNum) :
    appendEvents table (b :: bs2) = (table, false) := by
  show appendAux (b :: bs2).length table (b :: bs2) = (table, false)
  have hlc : (b :: bs2).length = bs2.length + 1 := by simp
  rw [hlc]
  exact appendAux_fail_first bs2.length table b bs2 hconf

theorem inv_init : Inv initState := by
  refine ⟨fun _ => logContiguous_nil, fun s h0 hs0 => ?_, fun s S hS => ?_⟩
  · simp [initState] at hs0
  · simp [initState] at hS

theorem inv_connect (st : SState) (ws : Nat) (storeId : String) (h : Inv st) :
    Inv (connectStep st ws storeId) := by
  obtain ⟨hlog, hheads, hch⟩ := h
  cases hc : st.conns storeId with
  | none =>
    cases hh : st.heads storeId with
    | none =>
      simp only [connectStep, hc, hh]
      refine ⟨hlog, ?_, ?_⟩
      · intro s h0 hs0
        dsimp only at hs0 ⊢
        by_cases hss : s = storeId
        · subst hss
          rw [mapSet_same] at hs0
          exact (Option.some.inj hs0).symm
        · rw [mapSet_ne _ _ _ hss] at hs0
          exact hheads s h0 hs0
      · intro s S hS hne
        dsimp only at hS ⊢
        by_cases hss : s = storeId
        · subst hss
          rw [mapSet_same]
          simp
        · rw [mapSet_ne _ _ _ hss] at hS
          rw [mapSet_ne _ _ _ hss]
          exact hch s S hS hne
    | some hd =>
      simp only [connectStep, hc, hh]
      refine ⟨hlog, hheads, ?_⟩
      intro s S hS hne
      dsimp only at hS ⊢
      by_cases hss : s = storeId
      · subst hss
        rw [hh]
        simp
      · rw [mapSet_ne _ _ _ hss] at hS
        exact hch s S hS hne
  | some s0 =>
    cases hh : st.heads storeId with
    | none =>
      simp only [connectStep, hc, hh]
      refine ⟨hlog, ?_, ?_⟩
      · intro s h0 hs0
        dsimp only at hs0 ⊢
        by_cases hss : s = storeId
        · subst hss
          rw [mapSet_same] at hs0
          exact (Option.some.inj hs0).symm
        · rw [mapSet_ne _ _ _ hss] at hs0
          exact hheads s h0 hs0
      · intro s S hS hne
        dsimp only at hS ⊢
        by_cases hss : s = storeId
        · subst hss
          rw [mapSet_same]
          simp
        · rw [mapSet_ne _ _ _ hss] at hS
          rw [mapSet_ne _ _ _ hss]
          exact hch s S hS hne
    | some hd =>
      simp only [connectStep, hc, hh]
      refine ⟨hlog, hheads, ?_⟩
      intro s S hS hne
      dsimp only at hS ⊢
      by_cases hss : s = storeId
      · subst hss
        rw [hh]
        simp
      · rw [mapSet_ne _ _ _ hss] at hS
        exact hch s S hS hne

theorem inv_disconnect (st : SState) (ws : Nat) (storeId : String) (h : Inv st) :
    Inv (disconnectStep st ws storeId) := by
  obtain ⟨hlog, hheads, hch⟩ := h
  cases hc : st.conns storeId with
  | none =>
    simp only [disconnectStep, hc]
    exact ⟨hlog, hheads, hch⟩
  | some s0 =>
    by_cases he : s0.erase ws = ∅
    · simp only [disconnectStep, hc, if_pos he]
      refine ⟨hlog, ?_, ?_⟩
      · intro s h0 hs0
        dsimp only at hs0 ⊢
        by_cases hss : s = storeId
        · subst hss
          rw [mapSet_same] at hs0
          exact absurd hs0 (by simp)
        · rw [mapSet_ne _ _ _ hss] at hs0
          exact hheads s h0 hs0
      · intro s S hS hne
        dsimp only at hS ⊢
        by_cases hss : s = storeId
        · subst hss
          rw [mapSet_same] at hS
          exact absurd hS (by simp)
        · rw [mapSet_ne _ _ _ hss] at hS
          rw [mapSet_ne _ _ _ hss]
          exact hch s S hS hne
    · simp only [disconnectStep, hc, if_neg he]
      refine ⟨hlog, hheads, ?_⟩
      intro s S hS hne
      dsimp only at hS ⊢
      by_cases hss : s = storeId
      · subst hss
        have hs0ne : s0.Nonempty :=
          Finset.Nonempty.mono (Finset.erase_subset _ _)
            (Finset.nonempty_iff_ne_empty.mpr he)
        exact hch _ s0 hc hs0ne
      · rw [mapSet_ne _ _ _ hss] at hS
        exact hch s S hS hne

theorem inv_broadcast (st : SState) (storeId : String) (failedSends : Finset Nat)
    (exclude : Option Nat) (h : Inv st) :
    Inv (broadcastStep st storeId failedSends exclude) := by
  obtain ⟨hlog, hheads, hch⟩ := h
  cases hc : st.conns storeId with
  | none =>
    simp only [broadcastStep, hc]
    exact ⟨hlog, hheads, hch⟩
  | some s0 =>
    simp only [broadcastStep, hc]
    refine ⟨hlog, hheads, ?_⟩
    intro s S hS hne
    dsimp only at hS ⊢
    by_cases hss : s = storeId
    · subst hss
      have hs0ne : s0.Nonempty := by
        rw [mapSet_same] at hS
        have hSf : S = s0.filter (fun c => some c = exclude ∨ c ∉ failedSends) :=
          (Option.some.inj hS).symm
        have hsub : S ⊆ s0 := by
          rw [hSf]
          exact Finset.filter_subset _ _
        exact Finset.Nonempty.mono hsub hne
      exact hch _ s0 hc hs0ne
    · rw [mapSet_ne _ _ _ hss] at hS
      exact hch s S hS hne

theorem inv_adminReset (st : SState) (storeId : String) (cfg : Settings)
    (isAdmin : Bool) (requestId adminSecret : String) (h : Inv st) :
    Inv (handleAdminReset st storeId cfg isAdmin requestId adminSecret).1 := by
  obtain ⟨hlog, hheads, hch⟩ := h
  by_cases ha : adminSecret = cfg.adminSecret ∨ isAdmin = true
  · simp only [handleAdminReset, if_pos ha]
    refine ⟨?_, ?_, ?_⟩
    · intro s
      dsimp only
      by_cases hss : s = storeId
      · subst hss
        rw [mapSet_same]
        exact logContiguous_nil
      · rw [mapSet_ne _ _ _ hss]
        exact hlog s
    · intro s h0 hs0
      dsimp only at hs0 ⊢
      by_cases hss : s = storeId
      · subst hss
        rw [mapSet_same] at hs0
        have h00 : h0 = 0 := (Option.some.inj hs0).symm
        rw [h00, mapSet_same]
        simp [dbHead]
      · rw [mapSet_ne _ _ _ hss] at hs0
        rw [mapSet_ne _ _ _ hss]
        exact hheads s h0 hs0
    · intro s S hS hne
      dsimp only at hS ⊢
      by_cases hss : s = storeId
      · subst hss
        rw [mapSet_same]
        simp
      · rw [mapSet_ne _ _ _ hss]
        exact hch s S hS hne
  · simp only [handleAdminReset, if_neg ha]
    exact ⟨hlog, hheads, hch⟩

theorem inv_pushCommit (st : SState) (storeId : String) (first : EventEncoded)
    (rest : List EventEncoded) (createdAt : String) (semsF : String → Bool)
    (hlog : ∀ s, LogContiguous (st.db s)) (hheads : HeadsOk st) (hch : ConnsHeads st)
    (hb1 : ∀ e ∈ (first :: rest), e.seqNum = e.parentSeqNum + 1)
    (hb2 : List.Chain' (fun a b => b.parentSeqNum = a.seqNum) (first :: rest))
    (hfirst : first.parentSeqNum = ((st.db storeId).length : Int)) :
    Inv ⟨mapSet st.db storeId
           (st.db storeId ++ (first :: rest).map (toStored createdAt)),
         st.conns,
         mapSet st.heads storeId
           (some (((first :: rest).getLast (List.cons_ne_nil first rest)).seqNum)),
         semsF⟩ := by
  have hnew : LogContiguous (st.db storeId ++ (first :: rest).map (toStored createdAt)) :=
    logContiguous_append _ first rest createdAt (hlog storeId) hb1 hb2 hfirst
  refine ⟨?_, ?_, ?_⟩
  · intro s
    dsimp only
    by_cases hss : s = storeId
    · subst hss
      rw [mapSet_same]
      exact hnew
    · rw [mapSet_ne _ _ _ hss]
      exact hlog s
  · intro s h0 hs0
    dsimp only at hs0 ⊢
    by_cases hss : s = storeId
    · subst hss
      rw [mapSet_same] at hs0
      have h00 := (Option.some.inj hs0).symm
      rw [h00, mapSet_same, dbHead_contiguous _ hnew,
        lastSeqEq first rest hb1 hb2, hfirst]
      simp only [List.length_append, List.length_map, List.length_cons]
      push_cast
      ring
    · rw [mapSet_ne _ _ _ hss] at hs0
      rw [mapSet_ne _ _ _ hss]
      exact hheads s h0 hs0
  · intro s S hS hne
    dsimp only at hS ⊢
    by_cases hss : s = storeId
    · subst hss
      rw [mapSet_same]
      simp
    · rw [mapSet_ne _ _ _ hss]
      exact hch s S hS hne

theorem inv_dbSame (st : SState) (storeId : String) (semsF : String → Bool)
    (hlog : ∀ s, LogContiguous (st.db s)) (hheads : HeadsOk st) (hch : ConnsHeads st) :
    Inv ⟨mapSet st.db storeId (st.db storeId), st.conns, st.heads, semsF⟩ := by
  refine ⟨?_, ?_, ?_⟩
  · intro s
    dsimp only
    by_cases hss : s = storeId
    · subst hss
      rw [mapSet_same]
      exact hlog _
    · rw [mapSet_ne _ _ _ hss]
      exact hlog s
  · intro s h0 hs0
    dsimp only at hs0 ⊢
    by_cases hss : s = storeId
    · subst hss
      rw [mapSet_same]
      exact hheads _ h0 hs0
    · rw [mapSet_ne _ _ _ hss]
      exact hheads s h0 hs0
  · exact hch

theorem inv_push (st : SState) (storeId : String) (authenticated : Bool)
    (requestId : String) (batch : List EventEncoded) (createdAt : String)
    (failedSends : Finset Nat) (h : Inv st)
    (hwf : PushAccepted st storeId authenticated batch → BatchContiguous batch) :
    Inv (handlePushReq st storeId authenticated requestId batch createdAt
      failedSends).state := by
  cases authenticated with
  | false =>
    have hred : (handlePushReq st storeId false requestId batch createdAt
        failedSends).state = st := rfl
    rw [hred]
    exact h
  | true =>
    match batch with
    | [] =>
      have hred : (handlePushReq st storeId true requestId [] createdAt
          failedSends).state = { st with sems := mapSet st.sems storeId true } := rfl
      rw [hred]
      exact h
    | first :: rest =>
      by_cases hpm : first.parentSeqNum = (st.heads storeId).getD 0
      case neg =>
        have hred : (handlePushReq st storeId true requestId (first :: rest)
            createdAt failedSends).state =
            { st with sems := mapSet st.sems storeId true } := by
          simp [handlePushReq, hpm]
        rw [hred]
        exact h
      case pos =>
        obtain ⟨hb1, hb2⟩ := hwf ⟨rfl, first, rest, rfl, hpm⟩
        obtain ⟨hlog, hheads, hch⟩ := h
        have hmapeq : ((first :: rest).map (toStored createdAt)).map StoredEvent.seqNum
            = (first :: rest).map EventEncoded.seqNum := by
          rw [List.map_map]
          rfl
        have hnd : (((first :: rest).map (toStored createdAt)).map
            StoredEvent.seqNum).Nodup := by
          rw [hmapeq]
          exact batchSeqNodup first rest hb1 hb2
        cases hh : st.heads storeId with
        | some hd =>
          have hfirst : first.parentSeqNum = ((st.db storeId).length : Int) := by
            have h1 : first.parentSeqNum = hd := by
              rw [hpm, hh]
              simp
            rw [h1, hheads storeId hd hh, dbHead_contiguous _ (hlog storeId)]
          have hdis : ∀ e ∈ (first :: rest).map (toStored createdAt),
              ∀ r ∈ st.db storeId, e.seqNum ≠ r.seqNum := by
            intro e he r hr
            obtain ⟨b0, hb0, hbe⟩ := List.mem_map.mp he
            have hlb := batchSeqLb first rest hb1 hb2 b0 hb0
            have hub := logContiguous_mem_le _ (hlog storeId) r hr
            have hes : e.seqNum = b0.seqNum := by
              rw [← hbe]
              rfl
            rw [hfirst] at hlb
            rw [hes]
            omega
          have happ : appendEvents (st.db storeId)
              ((first :: rest).map (toStored createdAt)) =
              (st.db storeId ++ (first :: rest).map (toStored createdAt), true) :=
            appendEvents_ok _ _ hnd hdis
          rw [List.map_cons] at happ
          have hred : (handlePushReq st storeId true requestId (first :: rest)
              createdAt failedSends).state =
              broadcastStep
                ⟨mapSet st.db storeId
                   (st.db storeId ++ (first :: rest).map (toStored createdAt)),
                 st.conns,
                 mapSet st.heads storeId
                   (some (((first :: rest).getLast
                     (List.cons_ne_nil first rest)).seqNum)),
                 mapSet st.sems storeId true⟩ storeId failedSends none := by
            simp [handlePushReq, hpm, happ]
          rw [hred]
          exact inv_broadcast _ _ _ _
            (inv_pushCommit st storeId first rest createdAt _ hlog hheads hch
              hb1 hb2 hfirst)
        | none =>
          have hpm0 : first.parentSeqNum = 0 := by
            rw [hpm, hh]
            simp
          cases hdb : st.db storeId with
          | nil =>
            have hfirst : first.parentSeqNum = ((st.db storeId).length : Int) := by
              rw [hpm0, hdb]
              simp
            have hdis : ∀ e ∈ (first :: rest).map (toStored createdAt),
                ∀ r ∈ st.db storeId, e.seqNum ≠ r.seqNum := by
              intro e _ r hr
              rw [hdb] at hr
              simp at hr
            have happ : appendEvents (st.db storeId)
                ((first :: rest).map (toStored createdAt)) =
                (st.db storeId ++ (first :: rest).map (toStored createdAt), true) :=
              appendEvents_ok _ _ hnd hdis
            rw [List.map_cons] at happ
            have hred : (handlePushReq st storeId true requestId (first :: rest)
                createdAt failedSends).state =
                broadcastStep
                  ⟨mapSet st.db storeId
                     (st.db storeId ++ (first :: rest).map (toStored createdAt)),
                   st.conns,
                   mapSet st.heads storeId
                     (some (((first :: rest).getLast
                       (List.cons_ne_nil first rest)).seqNum)),
                   mapSet st.sems storeId true⟩ storeId failedSends none := by
              simp [handlePushReq, hpm, happ]
            rw [hred]
            exact inv_broadcast _ _ _ _
              (inv_pushCommit st storeId first rest createdAt _ hlog hheads hch
                hb1 hb2 hfirst)
          | cons r0 ls =>
            have hlog2 : LogContiguous (r0 :: ls) := by
              have := hlog storeId
              rw [hdb] at this
              exact this
            have hr0 : r0.seqNum = 1 := by
              simpa using (hlog2 ⟨0, by simp⟩).1
            have hfseq : first.seqNum = 1 := by
              have := hb1 first (by simp)
              omega
            have hconf : ∃ e ∈ ((toStored createdAt first) ::
                rest.map (toStored createdAt)).take 100,
                ∃ r ∈ st.db storeId, e.seqNum = r.seqNum := by
              refine ⟨toStored createdAt first, ?_, r0, by rw [hdb]; simp, ?_⟩
              · have h100 : (100 : Nat) = 99 + 1 := rfl
                rw [h100, List.take_succ_cons]
                exact List.mem_cons_self _ _
              · show first.seqNum = r0.seqNum
                rw [hfseq, hr0]
            have happ : appendEvents (st.db storeId)
                (toStored createdAt first :: rest.map (toStored createdAt)) =
                (st.db storeId, false) :=
              appendEvents_fail (st.db storeId)
                (toStored createdAt first) (rest.map (toStored createdAt)) hconf
            have hred : (handlePushReq st storeId true requestId (first :: rest)
                createdAt failedSends).state =
                ⟨mapSet st.db storeId (st.db storeId), st.conns, st.heads,
                 mapSet st.sems storeId true⟩ := by
              simp [handlePushReq, hpm, happ]
            rw [hred]
            exact inv_dbSame st storeId _ hlog hheads hch

theorem reachableWF_inv (st : SState) (h : ReachableWF st) : Inv st := by
  induction h with
  | init => exact inv_init
  | connect _ ws storeId ih => exact inv_connect _ ws storeId ih
  | disconnect _ ws storeId ih => exact inv_disconnect _ ws storeId ih
  | push _ storeId authenticated requestId batch createdAt failedSends hwf ih =>
    exact inv_push _ storeId authenticated requestId batch createdAt failedSends ih hwf
  | adminReset _ storeId cfg isAdmin requestId adminSecret ih =>
    exact inv_adminReset _ storeId cfg isAdmin requestId adminSecret ih

/-- Claim C1 (amended): in every run whose accepted pushes carry internally
contiguous batches, every reachable persisted log is strictly increasing in
seq_num from 1 with no gaps and each row's parent_seq_num is the previous
row's seq_num (0 for the first); the counterexample run shows the amendment
necessary, since acceptance validates only the first event against the head. -/
theorem C1_accepted_pushes_keep_log_contiguous {st : SState} (h : ReachableWF st)
    (storeId : String) : LogContiguous (st.db storeId) :=
  (reachableWF_inv st h).1 storeId

/-- Counterexample to claim C1 as stated: on an empty store the push of the
single event with seq_num 2 and parent_seq_num 0 is accepted (PushAck sent,
batch appended), yet the resulting log starts at 2 and violates the
contiguity invariant. -/
theorem C1_counterexample :
    c1Run.sent = [ServerMsg.pushAck "p1"] ∧
    (c1Run.state.db "s").map StoredEvent.seqNum = [2] ∧
    ¬ LogContiguous (c1Run.state.db "s") := by
  refine ⟨rfl, rfl, by decide⟩

/-- Witness for the amended C1 at a concrete contiguous run. -/
theorem C1_witness : LogContiguous (c1WfState.db "w1") :=
  C1_accepted_pushes_keep_log_contiguous
    (ReachableWF.push (ReachableWF.connect ReachableWF.init 0 "w1") "w1" true "p1"
      [⟨1, 0, "x", none, "c1", "s1"⟩, ⟨2, 1, "y", none, "c1", "s1"⟩] "t0" ∅
      (fun _ => ⟨by decide, List.Chain.cons (by decide) List.Chain.nil⟩)) "w1"

/-- Claim C4 (amended): in every run whose accepted pushes carry internally
contiguous batches, whenever a store has at least one subscriber the cached
head equals the largest durably persisted seq_num (0 for an empty store), and
connecting with an uninitialized cache populates it from the durable head. -/
theorem C4_head_cache_matches_durable {st : SState} (h : ReachableWF st)
    (storeId : String) (S : Finset Nat) (hconn : st.conns storeId = some S)
    (hne : S.Nonempty) :
    st.heads storeId = some (dbHead (st.db storeId)) ∧
    (∀ (t : SState) (ws : Nat) (sid : String), t.heads sid = none →
      (connectStep t ws sid).heads sid = some (dbHead (t.db sid))) := by
  constructor
  · obtain ⟨_, hheads, hch⟩ := reachableWF_inv st h
    have hnn := hch storeId S hconn hne
    cases hh : st.heads storeId with
    | none => exact absurd hh hnn
    | some v => rw [hheads storeId v hh]
  · intro t ws sid hnone
    cases hc : t.conns sid with
    | none =>
      simp only [connectStep, hc, hnone]
      exact mapSet_same _ _ _
    | some s0 =>
      simp only [connectStep, hc, hnone]
      exact mapSet_same _ _ _

/-- Counterexample to claim C4 as stated: an accepted two-event push whose
second event's seq_num 3 is below the first's seq_num 5 leaves one subscriber
attached with cached head 3 while the durable head is 5. -/
theorem C4_counterexample :
    c4Run.sent = [ServerMsg.pushAck "p1"] ∧
    c4Run.state.conns "s4" = some {0} ∧
    ({0} : Finset Nat).Nonempty ∧
    c4Run.state.heads "s4" = some 3 ∧
    dbHead (c4Run.state.db "s4") = 5 ∧
    c4Run.state.heads "s4" ≠ some (dbHead (c4Run.state.db "s4")) := by
  refine ⟨rfl, by decide, by decide, rfl, by decide, by decide⟩

/-- Witness for the amended C4 at a concrete contiguous run with one attached
subscriber. -/
theorem C4_witness :
    c4WfState.heads "w4" = some (dbHead (c4WfState.db "w4")) :=
  (C4_head_cache_matches_durable
    (ReachableWF.push (ReachableWF.connect ReachableWF.init 0 "w4") "w4" true "p1"
      [⟨1, 0, "x", none, "c1", "s1"⟩] "t0" ∅
      (fun _ => ⟨by decide, List.Chain.nil⟩))
    "w4" {0} (by decide) (by decide)).1

/-- Witness for C10: in the concrete manager state with subscriber set 0 on
store b, a broadcast whose only send fails empties the set while the cached
head 5 and the semaphore survive. -/
theorem C10_witness :
    (∀ s, (broadcastStep c10State "b" {0} none).heads s = c10State.heads s) ∧
    (broadcastStep c10State "b" {0} none).conns "b" =
      some (({0} : Finset Nat).filter (fun c => some c = none ∨ c ∉ ({0} : Finset Nat))) :=
  ⟨(C10_broadcast_frame_effect c10State "b" {0} none {0} (by decide)).1,
   (C10_broadcast_frame_effect c10State "b" {0} none {0} (by decide)).2.2.2.1⟩

end Livestore
